import Mathlib

/-!
Verification of the checker orchestration runtime of `lintpack`
(`linter/lintmain/internal/check/check.go`), shallowly embedded in Lean.

External collaborators (the `regexp` library, `go/ast`, the source loader)
are embedded by their observable behaviour: a compiled regular expression
becomes the Lean function deciding its RE2 `MatchString` semantics, and a
comment group becomes the string returned by `(*ast.CommentGroup).Text()`.
-/

namespace Lintpack

/-- Embedding of `strings.HasSuffix(s, suffix)`, used for the `_test.go` test-file check. -/
def hasSuffix (s suffix : String) : Bool :=
  suffix.toList.isSuffixOf s.toList

/-- Unanchored substring search: does `pat` occur contiguously inside `l`?
This is RE2 `MatchString` for a pattern made only of literal characters. -/
def containsSub (pat : List Char) : List Char → Bool
  | [] => pat.isEmpty
  | c :: rest => pat.isPrefixOf (c :: rest) || containsSub pat rest

/-- Denotation of the compiled RE2 regexp `^experimental$|^performance$|^opinionated$`,
the default of the `-disableTags` flag (check.go:247).  Every alternative is
anchored at both ends (`^`, `$`; Go compiles with multi-line mode off), so
`MatchString` succeeds exactly on the three literal strings. -/
def defaultDisableTagsMatch (s : String) : Bool :=
  s == "experimental" || s == "performance" || s == "opinionated"

/-- Denotation of the compiled RE2 regexp `<none>`, the default of the
`-disable` flag (check.go:249).  `<` and `>` are literal characters in RE2,
so `MatchString` succeeds exactly on strings containing `<none>` as a
contiguous substring. -/
def defaultDisableMatch (s : String) : Bool :=
  containsSub "<none>".toList s.toList

/-- Denotation of the compiled RE2 regexp `.*`, the default of both the
`-enableTags` and `-enable` flags (check.go:251-253).  `.*` matches the empty
string at position 0, so `MatchString` succeeds on every string. -/
def matchEverything : String → Bool := fun _ => true

/-- Embedding of `lintpack.CheckerInfo`, restricted to the fields the orchestration core
reads: the unique name and the classification tags. -/
structure CheckerInfo where
  name : String
  tags : List String
deriving DecidableEq

/-- The four compiled selection patterns (`l.filters` in check.go:59-64), each
embedded as its `MatchString` function. -/
structure Filters where
  disableTags : String → Bool
  disable : String → Bool
  enableTags : String → Bool
  enable : String → Bool

/-- The filters produced by `parseArgs` when every flag keeps its default. -/
def defaultFilters : Filters :=
  { disableTags := defaultDisableTagsMatch
    disable := defaultDisableMatch
    enableTags := matchEverything
    enable := matchEverything }

/-- Embedding of `matchAnyTag` (check.go:159-166): does any tag of the entry match `re`? -/
def matchAnyTag (re : String → Bool) (info : CheckerInfo) : Bool :=
  info.tags.any re

/-- Embedding of `disabledByTags` (check.go:167-172). -/
def disabledByTags (fl : Filters) (info : CheckerInfo) : Bool :=
  if info.tags.length == 0 then false
  else matchAnyTag fl.disableTags info

/-- Embedding of `enabledByTags` (check.go:173-178). -/
def enabledByTags (fl : Filters) (info : CheckerInfo) : Bool :=
  if info.tags.length == 0 then true
  else matchAnyTag fl.enableTags info

/-- The per-entry decision of the `switch` in `initCheckers` (check.go:184-197):
`true` iff the entry ends up in `l.checkers`. -/
def checkerEnabled (fl : Filters) (info : CheckerInfo) : Bool :=
  if disabledByTags fl info then false
  else if fl.disable info.name then false
  else if enabledByTags fl info then true
  else if fl.enable info.name then true
  else false

/-- Embedding of `initCheckers` (check.go:158-211): keep the enabled entries; an empty
selection is an error. -/
def initCheckers (fl : Filters) (infos : List CheckerInfo) :
    Except String (List CheckerInfo) :=
  let checkers := infos.filter (checkerEnabled fl)
  if checkers.isEmpty then Except.error "empty checkers set selected"
  else Except.ok checkers

/-- Modelled from the spec: the Selection Filter as §4.1 words it, for
refinement against `checkerEnabled` — (1) at least one tag and some tag
matches tag-exclude → disabled; (2) name matches name-exclude → disabled;
(3) zero tags or some tag matches tag-include → enabled; (4) name matches
name-include → enabled; (5) otherwise disabled. -/
def specSelect (fl : Filters) (info : CheckerInfo) : Bool :=
  if !info.tags.isEmpty && info.tags.any fl.disableTags then false
  else if fl.disable info.name then false
  else if info.tags.isEmpty || info.tags.any fl.enableTags then true
  else if fl.enable info.name then true
  else false

/-- Denotation of the RE2 regexp `experimental` (all literal characters,
unanchored): a `-enableTags` value whose `MatchString` accepts the tag
`experimental`. -/
def experimentalMatch (s : String) : Bool :=
  containsSub "experimental".toList s.toList

/-- Filters for a run with only `-enableTags experimental` set and every other
flag at its default. -/
def expIncludeFilters : Filters :=
  { defaultFilters with enableTags := experimentalMatch }

/-- Denotation of the RE2 regexp `^performance$|^opinionated$`: the default
tag-exclude with its `^experimental$` branch removed. -/
def noExpDisableTagsMatch (s : String) : Bool :=
  s == "performance" || s == "opinionated"

/-- Filters for a run with `-enableTags experimental` and a `-disableTags`
value that no longer matches `experimental`. -/
def expBothFilters : Filters :=
  { expIncludeFilters with disableTags := noExpDisableTagsMatch }

theorem all_not_eq_not_any {α : Type} (p : α → Bool) (l : List α) :
    l.all (fun a => !p a) = !l.any p := by
  induction l with
  | nil => rfl
  | cons x xs ih => simp [List.all_cons, List.any_cons, ih, Bool.not_or]

/-- C1: the Selection Filter decides enabled/disabled by exactly the five-step
precedence order of the spec (`checkerEnabled` refines `specSelect`); in
particular a tagged entry with a tag-exclude match is disabled no matter what
the name patterns say, and a tagged entry whose tags all fail tag-include and
whose name fails name-include is disabled even when no exclude pattern
matches it. -/
theorem c1_selection_precedence (fl : Filters) (info : CheckerInfo) :
    checkerEnabled fl info = specSelect fl info
    ∧ (info.tags ≠ [] → info.tags.any fl.disableTags = true →
        checkerEnabled fl info = false)
    ∧ (info.tags ≠ [] → info.tags.all (fun t => !fl.enableTags t) = true →
        fl.enable info.name = false → checkerEnabled fl info = false) := by
  refine ⟨?_, ?_, ?_⟩
  · cases h : info.tags with
    | nil =>
        simp [checkerEnabled, specSelect, disabledByTags, enabledByTags,
          matchAnyTag, h]
    | cons t ts =>
        simp [checkerEnabled, specSelect, disabledByTags, enabledByTags,
          matchAnyTag, h]
  · intro hne hany
    have hlen : (info.tags.length == 0) = false := by
      cases h : info.tags with
      | nil => exact absurd h hne
      | cons t ts => simp [h]
    simp [checkerEnabled, disabledByTags, matchAnyTag, hlen, hany]
  · intro hne hall henable
    have hlen : (info.tags.length == 0) = false := by
      cases h : info.tags with
      | nil => exact absurd h hne
      | cons t ts => simp [h]
    have hany : info.tags.any fl.enableTags = false := by
      rw [all_not_eq_not_any] at hall
      simpa using hall
    by_cases h1 : disabledByTags fl info = true
    · simp [checkerEnabled, h1]
    · by_cases h2 : fl.disable info.name = true
      · simp [checkerEnabled, h1, h2]
      · simp [checkerEnabled, enabledByTags, matchAnyTag, h1, h2, hlen,
          hany, henable]

/-- Witness for C1 at concrete entries: a `performance`-tagged rule is
disabled under the default tag-exclude even though the default name-include
matches everything; a `style`-tagged rule is disabled when its tag fails
tag-include and its name fails name-include though no exclude matches it. -/
theorem c1_selection_precedence_witness :
    checkerEnabled defaultFilters ⟨"rangeExprCopy", ["performance"]⟩ = false
    ∧ checkerEnabled
        ⟨fun _ => false, fun _ => false, fun _ => false, fun _ => false⟩
        ⟨"someRule", ["style"]⟩ = false := by
  constructor
  · exact (c1_selection_precedence defaultFilters
      ⟨"rangeExprCopy", ["performance"]⟩).2.1 (by decide) (by decide)
  · exact (c1_selection_precedence
      ⟨fun _ => false, fun _ => false, fun _ => false, fun _ => false⟩
      ⟨"someRule", ["style"]⟩).2.2 (by decide) (by decide) (by decide)

/-- C2: an entry with zero tags cannot be disabled by the tag-exclude step,
and is enabled whatever the tag-include pattern is, unless its name matches
the name-exclude pattern (in which case it is disabled). -/
theorem c2_zero_tags_enabled (fl : Filters) (info : CheckerInfo)
    (h : info.tags = []) :
    disabledByTags fl info = false
    ∧ (fl.disable info.name = false → checkerEnabled fl info = true)
    ∧ (fl.disable info.name = true → checkerEnabled fl info = false) := by
  refine ⟨?_, fun hd => ?_, fun hd => ?_⟩
  · simp [disabledByTags, h]
  · simp [checkerEnabled, disabledByTags, enabledByTags, matchAnyTag, h, hd]
  · simp [checkerEnabled, disabledByTags, enabledByTags, matchAnyTag, h, hd]

/-- Witness for C2: the untagged rule `dupArg` is enabled under the default
filters even though the default tag-include is irrelevant to it. -/
theorem c2_zero_tags_enabled_witness :
    checkerEnabled defaultFilters ⟨"dupArg", []⟩ = true :=
  (c2_zero_tags_enabled defaultFilters ⟨"dupArg", []⟩ rfl).2.1 (by decide)

/-- C3 counterexample: with `-enableTags` set to a pattern matching
`experimental` and every other pattern left at its default, a rule tagged
`experimental` is still disabled — the tag-exclude step runs first and the
default tag-exclude still matches the tag. -/
theorem c3_counterexample :
    checkerEnabled expIncludeFilters ⟨"boolExprSimplify", ["experimental"]⟩
      = false := by decide

/-- C3 (amended): a rule tagged `experimental` is disabled under the default
filters; explicitly setting tag-include to match `experimental` does not by
itself enable it, because the default tag-exclude takes precedence; it becomes
enabled once the tag-exclude pattern is additionally changed to no longer
match `experimental`. -/
theorem c3_experimental_tag (name : String) :
    checkerEnabled defaultFilters ⟨name, ["experimental"]⟩ = false
    ∧ checkerEnabled expIncludeFilters ⟨name, ["experimental"]⟩ = false
    ∧ checkerEnabled expBothFilters ⟨"boolExprSimplify", ["experimental"]⟩
        = true := by
  refine ⟨?_, ?_, by decide⟩
  · simp [checkerEnabled, disabledByTags, matchAnyTag, defaultFilters,
      defaultDisableTagsMatch]
  · simp [checkerEnabled, disabledByTags, matchAnyTag, expIncludeFilters,
      defaultFilters, defaultDisableTagsMatch]

/-- C4 counterexample: the default name-exclude pattern `<none>` does match a
name — any name containing `<none>` as a substring — so a rule named `<none>`
is disabled by name under the all-default filters. -/
theorem c4_counterexample :
    defaultDisableMatch "<none>" = true
    ∧ checkerEnabled defaultFilters ⟨"<none>", []⟩ = false := by decide

/-- C4 (amended): under the default configuration, tag-include and
name-include match every string; tag-exclude matches exactly the tags
`experimental`, `performance` and `opinionated`; name-exclude matches exactly
the names containing the literal substring `<none>` (so no realistic rule
name); consequently an entry is enabled by default iff none of its tags is a
risk-category tag and its name does not contain `<none>`. -/
theorem c4_default_patterns (info : CheckerInfo) (s : String) :
    (checkerEnabled defaultFilters info =
      (info.tags.all (fun t => !defaultDisableTagsMatch t)
        && !defaultDisableMatch info.name))
    ∧ (defaultDisableTagsMatch s = true ↔
        s = "experimental" ∨ s = "performance" ∨ s = "opinionated")
    ∧ matchEverything s = true := by
  refine ⟨?_, ?_, rfl⟩
  · cases h : info.tags with
    | nil =>
        by_cases hd : defaultDisableMatch info.name = true <;>
          simp [checkerEnabled, disabledByTags, enabledByTags, matchAnyTag,
            defaultFilters, h, hd]
    | cons t ts =>
        by_cases ha : (t :: ts).any defaultDisableTagsMatch = true
        · have : (t :: ts).all (fun a => !defaultDisableTagsMatch a) = false := by
            rw [all_not_eq_not_any, ha]
            rfl
          simp [checkerEnabled, disabledByTags, matchAnyTag, defaultFilters,
            h, ha, this]
        · have hall : (t :: ts).all (fun a => !defaultDisableTagsMatch a) = true := by
            rw [all_not_eq_not_any]
            simp at ha
            simp [List.any_eq_false]
            exact ha
          by_cases hd : defaultDisableMatch info.name = true <;>
            simp [checkerEnabled, disabledByTags, enabledByTags, matchAnyTag,
              defaultFilters, matchEverything, h, ha, hd, hall]
  · simp [defaultDisableTagsMatch, or_assoc]

/-! ## Orchestrator: packages, units, concurrent dispatch, exit -/

/-- Characters of `"Code generated "`, the literal head of `generatedFileCommentRE`
(check.go:291). -/
def genLit : List Char := "Code generated ".toList

/-- Characters of `" DO NOT EDIT"`, the literal part of the regexp's tail; the final `.` of
the pattern is the RE2 any-character-but-newline metacharacter and is handled
separately. -/
def genTailLit : List Char := " DO NOT EDIT".toList

/-- Does the list start with one more character, and is it not a newline?
(The trailing `.` metacharacter of the pattern.) -/
def headNonNewline : List Char → Bool
  | [] => false
  | c :: _ => c != '\n'

/-- After the literal `Code generated ` has been consumed: scan for
`" DO NOT EDIT"` followed by one non-newline character, where the characters
skipped over (matched by `.*`) may not include a newline. -/
def genScan : List Char → Bool
  | [] => false
  | c :: rest =>
    (genTailLit.isPrefixOf (c :: rest)
      && headNonNewline ((c :: rest).drop genTailLit.length))
    || (c != '\n' && genScan rest)

/-- Unanchored search for the pattern `Code generated .* DO NOT EDIT.`:
RE2 `MatchString` of `generatedFileCommentRE` (check.go:291). -/
def genSearch : List Char → Bool
  | [] => false
  | c :: rest =>
    (genLit.isPrefixOf (c :: rest) && genScan ((c :: rest).drop genLit.length))
    || genSearch rest

/-- RE2 `MatchString` of `generatedFileCommentRE` on a comment group's text. -/
def generatedFileCommentMatch (s : String) : Bool :=
  genSearch s.toList

/-- One compilation unit, embedded by the two observations the orchestrator
makes of it: its base filename (`getFilename`, check.go:298) and the
`Text()` of each of its comment groups, in order. -/
structure File where
  filename : String
  comments : List String
deriving DecidableEq

/-- Embedding of `isGenerated` (check.go:293-296): the file has at least one comment group
and the marker pattern matches the text of the first one. -/
def isGenerated (f : File) : Bool :=
  !f.comments.isEmpty && generatedFileCommentMatch (f.comments.headD "")

/-- Modelled from the spec's words, for comparison with `isGenerated`:
detection that requires the marker to match at the very start of the leading
comment group's text. -/
def isGeneratedAtStart (f : File) : Bool :=
  !f.comments.isEmpty
    && (genLit.isPrefixOf (f.comments.headD "").toList
        && genScan ((f.comments.headD "").toList.drop genLit.length))

/-- One diagnostic as returned by a checker (`lintpack.Warning`), embedded by
its message text; position rendering is external. -/
structure Warning where
  text : String
deriving DecidableEq

/-- A panic raised inside a checker's `Check`: either `panic(error)` — the
documented way a checker signals an unexpected error (check.go:129) — or some
other run-time panic value. -/
inductive Fault where
  | errVal (msg : String)
  | other (tag : Nat)
deriving DecidableEq

/-- A rule instance: its registration metadata plus its `Check` function,
which either returns the warnings for a unit or aborts with a panic. -/
structure Checker where
  info : CheckerInfo
  check : File → Except Fault (List Warning)

/-- Observable events of a run: a `Check` invocation (instrumentation for
counting analyze calls), a printed warning (`printWarning`, check.go:151),
and the `log.Printf` of a checker fault (check.go:135). -/
inductive Event where
  | call (checker : String) (file : String)
  | warn (checker : String) (file : String) (text : String)
  | errLog (checker : String) (msg : String)
deriving DecidableEq

def Event.isWarn : Event → Bool
  | .warn _ _ _ => true
  | _ => false

def Event.isCall : Event → Bool
  | .call _ _ => true
  | _ => false

/-- The printed diagnostics among a run's events. -/
def warnEvents (evs : List Event) : List Event := evs.filter Event.isWarn

/-- The analyze (`Check`) invocations among a run's events. -/
def callEvents (evs : List Event) : List Event := evs.filter Event.isCall

/-- State threaded through the run: the `l.foundIssues` flag, the events
emitted so far, and the panic that aborted the run, if any. -/
structure StepResult where
  found : Bool
  events : List Event
  aborted : Option Fault
deriving DecidableEq

/-- One checker's task on one unit (the goroutine body of `checkFile`,
check.go:126-153): on success each returned warning sets `foundIssues` and is
printed; a panic carrying an error is logged with the checker's name and
re-raised; any other panic is re-raised unchanged without the named log. -/
def runChecker (c : Checker) (f : File) (found : Bool) : StepResult :=
  match c.check f with
  | Except.ok warns =>
      { found := warns.foldl (fun _ _ => true) found
        events := Event.call c.info.name f.filename ::
          warns.map (fun w => Event.warn c.info.name f.filename w.text)
        aborted := none }
  | Except.error (Fault.errVal msg) =>
      { found := found
        events := [Event.call c.info.name f.filename,
          Event.errLog c.info.name msg]
        aborted := some (Fault.errVal msg) }
  | Except.error (Fault.other t) =>
      { found := found
        events := [Event.call c.info.name f.filename]
        aborted := some (Fault.other t) }

/-- Embedding of `checkFile` (check.go:120-156): every active checker is dispatched on the
unit; a re-raised panic terminates the run. -/
def checkFileSt : List Checker → File → Bool → StepResult
  | [], _, found => { found := found, events := [], aborted := none }
  | c :: cs, f, found =>
    let r := runChecker c f found
    match r.aborted with
    | some p => { found := r.found, events := r.events, aborted := some p }
    | none =>
      let r2 := checkFileSt cs f r.found
      { found := r2.found, events := r.events ++ r2.events
        aborted := r2.aborted }

/-- Run configuration: the compiled filters plus the orchestration flags read
by `checkPackage` and `exit`. -/
structure Config where
  filters : Filters
  checkTests : Bool
  checkGenerated : Bool
  exitCode : Int

/-- The skip decision of `checkPackage`'s loop body (check.go:109-114). -/
def skipFile (cfg : Config) (f : File) : Bool :=
  (!cfg.checkTests && hasSuffix f.filename "_test.go")
    || (!cfg.checkGenerated && isGenerated f)

/-- Embedding of `checkPackage` (check.go:105-118): test units are skipped when test
checking is off, generated units when generated checking is off; every other
unit is handed to `checkFile`. -/
def checkPackageSt (cfg : Config) (cs : List Checker) :
    List File → Bool → StepResult
  | [], found => { found := found, events := [], aborted := none }
  | f :: fs, found =>
    if !cfg.checkTests && hasSuffix f.filename "_test.go" then
      checkPackageSt cfg cs fs found
    else if !cfg.checkGenerated && isGenerated f then
      checkPackageSt cfg cs fs found
    else
      let r := checkFileSt cs f found
      match r.aborted with
      | some _ => r
      | none =>
        let r2 := checkPackageSt cfg cs fs r.found
        { found := r2.found, events := r.events ++ r2.events
          aborted := r2.aborted }

/-- Embedding of `runCheckers` (check.go:83-103): the well-loaded packages are checked
strictly in sequence; each is a list of parsed units. -/
def runPackagesSt (cfg : Config) (cs : List Checker) :
    List (List File) → Bool → StepResult
  | [], found => { found := found, events := [], aborted := none }
  | pkg :: rest, found =>
    let r := checkPackageSt cfg cs pkg found
    match r.aborted with
    | some _ => r
    | none =>
      let r2 := runPackagesSt cfg cs rest r.found
      { found := r2.found, events := r.events ++ r2.events
        aborted := r2.aborted }

/-- Embedding of `exit` (check.go:76-81): `os.Exit(l.exitCode)` when issues were found,
otherwise a normal return (and the process ends with the success status). -/
def exitStep (foundIssues : Bool) (exitCode : Int) : Option Int :=
  if foundIssues then some exitCode else none

/-- How a run of `Main` terminates. -/
inductive RunOutcome where
  | fatalConfig (msg : String)
  | crashed (p : Fault) (events : List Event)
  | exited (code : Int) (events : List Event)
  | success (events : List Event)
deriving DecidableEq

/-- The events a run emitted before terminating. -/
def outcomeEvents : RunOutcome → List Event
  | RunOutcome.fatalConfig _ => []
  | RunOutcome.crashed _ es => es
  | RunOutcome.exited _ es => es
  | RunOutcome.success es => es

/-- The process exit status of a run: `log.Fatalf` exits with status 1, the
Go runtime exits with status 2 on an unrecovered panic, `os.Exit(code)` with
`code`, and a normal return from `Main` with the success status 0. -/
def processExit : RunOutcome → Int
  | RunOutcome.fatalConfig _ => 1
  | RunOutcome.crashed _ _ => 2
  | RunOutcome.exited c _ => c
  | RunOutcome.success _ => 0

/-- The step sequence of `Main` (check.go:26-46) from `initCheckers` on:
argument parsing, program loading and plugin loading are external inputs
(`cfg`, `pkgs`, `infos`, `impl`).  A step error aborts via `log.Fatalf`;
`l.foundIssues` starts at the zero value `false`. -/
def runLinter (cfg : Config) (infos : List CheckerInfo)
    (impl : CheckerInfo → File → Except Fault (List Warning))
    (pkgs : List (List File)) : RunOutcome :=
  match initCheckers cfg.filters infos with
  | Except.error msg => RunOutcome.fatalConfig msg
  | Except.ok active =>
    let cs := active.map (fun i => Checker.mk i (impl i))
    let r := runPackagesSt cfg cs pkgs false
    match r.aborted with
    | some p => RunOutcome.crashed p r.events
    | none =>
      match exitStep r.found cfg.exitCode with
      | some code => RunOutcome.exited code r.events
      | none => RunOutcome.success r.events

/-- Does a checker's `Check` return normally (no panic)? -/
def isOkB : Except Fault (List Warning) → Bool
  | Except.ok _ => true
  | Except.error _ => false

/-! ### Supporting lemmas -/

theorem foldl_true_of_true {α : Type} (l : List α) :
    l.foldl (fun _ _ => true) true = true := by
  induction l with
  | nil => rfl
  | cons x xs ih => simpa [List.foldl_cons] using ih

theorem foldl_true_eq {α : Type} (l : List α) (b : Bool) :
    l.foldl (fun _ _ => true) b = (b || !l.isEmpty) := by
  cases l with
  | nil => simp
  | cons x xs => simp [List.foldl_cons, foldl_true_of_true]

theorem warnEvents_ok_events (cn fn : String) (ws : List Warning) :
    warnEvents (Event.call cn fn :: ws.map (fun w => Event.warn cn fn w.text))
      = ws.map (fun w => Event.warn cn fn w.text) := by
  simp only [warnEvents, List.filter_cons]
  have h1 : Event.isWarn (Event.call cn fn) = false := rfl
  rw [h1]
  simp only [Bool.false_eq_true, if_false]
  refine List.filter_eq_self.mpr ?_
  intro a ha
  obtain ⟨w, _, rfl⟩ := List.mem_map.mp ha
  rfl

theorem callEvents_ok_events (cn fn : String) (ws : List Warning) :
    callEvents (Event.call cn fn :: ws.map (fun w => Event.warn cn fn w.text))
      = [Event.call cn fn] := by
  simp only [callEvents, List.filter_cons]
  have h1 : Event.isCall (Event.call cn fn) = true := rfl
  rw [h1]
  simp only [if_true]
  have h2 : (ws.map (fun w => Event.warn cn fn w.text)).filter Event.isCall
      = [] := by
    refine List.filter_eq_nil_iff.mpr ?_
    intro a ha
    obtain ⟨w, _, rfl⟩ := List.mem_map.mp ha
    simp [Event.isCall]
  rw [h2]

theorem runChecker_found (c : Checker) (f : File) (b : Bool) :
    (runChecker c f b).found
      = (b || !(warnEvents (runChecker c f b).events).isEmpty) := by
  cases h : c.check f with
  | ok warns =>
      simp only [runChecker, h, foldl_true_eq, warnEvents_ok_events]
      cases warns <;> simp
  | error p =>
      cases p <;> simp [runChecker, h, warnEvents, Event.isWarn]

theorem runChecker_aborted_none (c : Checker) (f : File) (b : Bool)
    (h : isOkB (c.check f) = true) : (runChecker c f b).aborted = none := by
  cases hc : c.check f with
  | ok warns => simp [runChecker, hc]
  | error p => rw [hc] at h; cases h

theorem not_isEmpty_append {α : Type} (x y : List α) :
    (!(x ++ y).isEmpty) = (!x.isEmpty || !y.isEmpty) := by
  cases x <;> simp

theorem checkFileSt_found (cs : List Checker) (f : File) (b : Bool) :
    (checkFileSt cs f b).found
      = (b || !(warnEvents (checkFileSt cs f b).events).isEmpty) := by
  induction cs generalizing b with
  | nil => simp [checkFileSt, warnEvents]
  | cons c cs' ih =>
    simp only [checkFileSt]
    cases hr : (runChecker c f b).aborted with
    | some p =>
        simpa using runChecker_found c f b
    | none =>
        have h1 := runChecker_found c f b
        have h2 := ih (runChecker c f b).found
        simp only [h2, h1, warnEvents, List.filter_append,
          not_isEmpty_append, Bool.or_assoc]
        simp only [ih, warnEvents, Bool.or_assoc]

theorem checkFileSt_aborted_none (cs : List Checker) (f : File) (b : Bool)
    (h : ∀ c ∈ cs, isOkB (c.check f) = true) :
    (checkFileSt cs f b).aborted = none := by
  induction cs generalizing b with
  | nil => rfl
  | cons c cs' ih =>
    have hc : (runChecker c f b).aborted = none :=
      runChecker_aborted_none c f b (h c (List.mem_cons_self c cs'))
    simp only [checkFileSt, hc]
    exact ih (runChecker c f b).found (fun c' hc' => h c' (List.mem_cons_of_mem c hc'))

theorem checkFileSt_calls (cs : List Checker) (f : File) (b : Bool)
    (h : ∀ c ∈ cs, isOkB (c.check f) = true) :
    callEvents (checkFileSt cs f b).events
      = cs.map (fun c => Event.call c.info.name f.filename) := by
  induction cs generalizing b with
  | nil => rfl
  | cons c cs' ih =>
    have hok := h c (List.mem_cons_self c cs')
    have hc : (runChecker c f b).aborted = none :=
      runChecker_aborted_none c f b hok
    simp only [checkFileSt, hc]
    cases hcheck : c.check f with
    | ok warns =>
        simp only [callEvents, List.filter_append, List.map_cons]
        have hr : callEvents (runChecker c f b).events
            = [Event.call c.info.name f.filename] := by
          simp [runChecker, hcheck, callEvents_ok_events]
        simp only [callEvents] at hr
        rw [hr]
        have := ih (runChecker c f b).found
          (fun c' hc' => h c' (List.mem_cons_of_mem c hc'))
        simp only [callEvents] at this
        rw [this]
        rfl
    | error p => rw [hcheck] at hok; cases hok

theorem checkPackageSt_found (cfg : Config) (cs : List Checker)
    (files : List File) (b : Bool) :
    (checkPackageSt cfg cs files b).found
      = (b || !(warnEvents (checkPackageSt cfg cs files b).events).isEmpty) := by
  induction files generalizing b with
  | nil => simp [checkPackageSt, warnEvents]
  | cons f fs ih =>
    by_cases hA : (!cfg.checkTests && hasSuffix f.filename "_test.go") = true
    · simpa [checkPackageSt, hA] using ih b
    · by_cases hB : (!cfg.checkGenerated && isGenerated f) = true
      · simpa [checkPackageSt, hA, hB] using ih b
      · simp only [checkPackageSt, hA, hB, if_false]
        simp only [Bool.false_eq_true, if_false]
        cases habort : (checkFileSt cs f b).aborted with
        | some p =>
            simpa using checkFileSt_found cs f b
        | none =>
            have h1 := checkFileSt_found cs f b
            have h2 := ih (checkFileSt cs f b).found
            simp only [h2, h1, warnEvents, List.filter_append,
              not_isEmpty_append, Bool.or_assoc]
            simp only [ih, warnEvents, Bool.or_assoc]

theorem checkPackageSt_aborted_none (cfg : Config) (cs : List Checker)
    (files : List File) (b : Bool)
    (h : ∀ c ∈ cs, ∀ f, isOkB (c.check f) = true) :
    (checkPackageSt cfg cs files b).aborted = none := by
  induction files generalizing b with
  | nil => rfl
  | cons f fs ih =>
    by_cases hA : (!cfg.checkTests && hasSuffix f.filename "_test.go") = true
    · simpa [checkPackageSt, hA] using ih b
    · by_cases hB : (!cfg.checkGenerated && isGenerated f) = true
      · simpa [checkPackageSt, hA, hB] using ih b
      · have hnone : (checkFileSt cs f b).aborted = none :=
          checkFileSt_aborted_none cs f b (fun c hc => h c hc f)
        simp only [checkPackageSt, hA, hB, Bool.false_eq_true, if_false, hnone]
        exact ih (checkFileSt cs f b).found

theorem checkPackageSt_calls (cfg : Config) (cs : List Checker)
    (files : List File) (b : Bool)
    (h : ∀ c ∈ cs, ∀ f, isOkB (c.check f) = true) :
    callEvents (checkPackageSt cfg cs files b).events
      = (files.filter (fun f => !skipFile cfg f)).flatMap
          (fun f => cs.map (fun c => Event.call c.info.name f.filename)) := by
  induction files generalizing b with
  | nil => rfl
  | cons f fs ih =>
    by_cases hA : (!cfg.checkTests && hasSuffix f.filename "_test.go") = true
    · have hskip : skipFile cfg f = true := by simp [skipFile, hA]
      simp only [List.filter_cons, hskip, Bool.not_true, Bool.false_eq_true,
        if_false]
      simpa [checkPackageSt, hA] using ih b
    · by_cases hB : (!cfg.checkGenerated && isGenerated f) = true
      · have hskip : skipFile cfg f = true := by simp [skipFile, hB]
        simp only [List.filter_cons, hskip, Bool.not_true, Bool.false_eq_true,
          if_false]
        simpa [checkPackageSt, hA, hB] using ih b
      · have hskip : skipFile cfg f = false := by
          simp only [skipFile]
          simp at hA hB ⊢
          exact ⟨hA, hB⟩
        have hnone : (checkFileSt cs f b).aborted = none :=
          checkFileSt_aborted_none cs f b (fun c hc => h c hc f)
        have hcalls := checkFileSt_calls cs f b (fun c hc => h c hc f)
        simp only [List.filter_cons, hskip, Bool.not_false, if_true,
          List.flatMap_cons]
        simp only [checkPackageSt, hA, hB, Bool.false_eq_true, if_false, hnone]
        simp only [callEvents, List.filter_append]
        simp only [callEvents] at hcalls
        rw [hcalls]
        have := ih (checkFileSt cs f b).found
        simp only [callEvents] at this
        rw [this]

theorem checkPackageSt_all_skip (cfg : Config) (cs : List Checker)
    (files : List File) (b : Bool)
    (h : ∀ f ∈ files, skipFile cfg f = true) :
    checkPackageSt cfg cs files b = ⟨b, [], none⟩ := by
  induction files with
  | nil => rfl
  | cons f fs ih =>
    have hf := h f (List.mem_cons_self f fs)
    have hrest : ∀ g ∈ fs, skipFile cfg g = true :=
      fun g hg => h g (List.mem_cons_of_mem f hg)
    by_cases hA : (!cfg.checkTests && hasSuffix f.filename "_test.go") = true
    · simpa [checkPackageSt, hA] using ih hrest
    · have hB : (!cfg.checkGenerated && isGenerated f) = true := by
        simp only [skipFile] at hf
        simp at hA hf ⊢
        rcases hf with ⟨h1, h2⟩ | ⟨h1, h2⟩
        · simp [hA h1] at h2
        · exact ⟨h1, h2⟩
      simpa [checkPackageSt, hA, hB] using ih hrest

theorem runPackagesSt_found (cfg : Config) (cs : List Checker)
    (pkgs : List (List File)) (b : Bool) :
    (runPackagesSt cfg cs pkgs b).found
      = (b || !(warnEvents (runPackagesSt cfg cs pkgs b).events).isEmpty) := by
  induction pkgs generalizing b with
  | nil => simp [runPackagesSt, warnEvents]
  | cons pkg rest ih =>
    simp only [runPackagesSt]
    cases habort : (checkPackageSt cfg cs pkg b).aborted with
    | some p =>
        simpa using checkPackageSt_found cfg cs pkg b
    | none =>
        have h1 := checkPackageSt_found cfg cs pkg b
        have h2 := ih (checkPackageSt cfg cs pkg b).found
        simp only [h2, h1, warnEvents, List.filter_append,
          not_isEmpty_append, Bool.or_assoc]
        simp only [ih, warnEvents, Bool.or_assoc]

theorem runPackagesSt_aborted_none (cfg : Config) (cs : List Checker)
    (pkgs : List (List File)) (b : Bool)
    (h : ∀ c ∈ cs, ∀ f, isOkB (c.check f) = true) :
    (runPackagesSt cfg cs pkgs b).aborted = none := by
  induction pkgs generalizing b with
  | nil => rfl
  | cons pkg rest ih =>
    have hnone : (checkPackageSt cfg cs pkg b).aborted = none :=
      checkPackageSt_aborted_none cfg cs pkg b h
    simp only [runPackagesSt, hnone]
    exact ih (checkPackageSt cfg cs pkg b).found

theorem runPackagesSt_calls (cfg : Config) (cs : List Checker)
    (pkgs : List (List File)) (b : Bool)
    (h : ∀ c ∈ cs, ∀ f, isOkB (c.check f) = true) :
    callEvents (runPackagesSt cfg cs pkgs b).events
      = pkgs.flatMap (fun files =>
          (files.filter (fun f => !skipFile cfg f)).flatMap
            (fun f => cs.map (fun c => Event.call c.info.name f.filename))) := by
  induction pkgs generalizing b with
  | nil => rfl
  | cons pkg rest ih =>
    have hnone : (checkPackageSt cfg cs pkg b).aborted = none :=
      checkPackageSt_aborted_none cfg cs pkg b h
    simp only [runPackagesSt, hnone, List.flatMap_cons]
    simp only [callEvents, List.filter_append]
    have hcalls := checkPackageSt_calls cfg cs pkg b h
    simp only [callEvents] at hcalls
    rw [hcalls]
    have := ih (checkPackageSt cfg cs pkg b).found
    simp only [callEvents] at this
    rw [this]

theorem runPackagesSt_all_skip (cfg : Config) (cs : List Checker)
    (pkgs : List (List File)) (b : Bool)
    (h : ∀ pkg ∈ pkgs, ∀ f ∈ pkg, skipFile cfg f = true) :
    runPackagesSt cfg cs pkgs b = ⟨b, [], none⟩ := by
  induction pkgs with
  | nil => rfl
  | cons pkg rest ih =>
    have hpkg : checkPackageSt cfg cs pkg b = ⟨b, [], none⟩ :=
      checkPackageSt_all_skip cfg cs pkg b (h pkg (List.mem_cons_self pkg rest))
    have hrest := ih (fun p hp => h p (List.mem_cons_of_mem pkg hp))
    simp [runPackagesSt, hpkg, hrest]

theorem initCheckers_ok (fl : Filters) (infos : List CheckerInfo)
    (h : (infos.filter (checkerEnabled fl)).isEmpty = false) :
    initCheckers fl infos = Except.ok (infos.filter (checkerEnabled fl)) := by
  simp [initCheckers, h]

/-- The default of the `-exitCode` flag (check.go:255). -/
def defaultExitCode : Int := 1

/-- A checker that always returns normally with no warnings. -/
def okChecker : Checker := ⟨⟨"dupArg", []⟩, fun _ => Except.ok []⟩

/-- A normally-returning implementation for every registered entry. -/
def okImpl : CheckerInfo → File → Except Fault (List Warning) :=
  fun _ _ => Except.ok []

/-- An ordinary compilation unit: not a test, no comments. -/
def fileU1 : File := ⟨"u1.go", []⟩

/-- A machine-generated compilation unit: its single comment group carries the
marker at the very start. -/
def fileU2 : File := ⟨"u2.go", ["Code generated by lintpack-gen. DO NOT EDIT."]⟩

/-- A test compilation unit. -/
def fileTest : File := ⟨"foo_test.go", []⟩

/-- C5: when the Selection Filter leaves the active rule set empty, the run
fails at the init-checkers step with the configuration error before any
analysis — the outcome carries zero events, hence zero `Check` calls, and the
process terminates with a non-zero status (`log.Fatalf`). -/
theorem c5_empty_set_fatal (cfg : Config) (infos : List CheckerInfo)
    (impl : CheckerInfo → File → Except Fault (List Warning))
    (pkgs : List (List File))
    (h : (infos.filter (checkerEnabled cfg.filters)).isEmpty = true) :
    runLinter cfg infos impl pkgs
        = RunOutcome.fatalConfig "empty checkers set selected"
    ∧ callEvents (outcomeEvents (runLinter cfg infos impl pkgs)) = []
    ∧ processExit (runLinter cfg infos impl pkgs) ≠ 0 := by
  have hinit : initCheckers cfg.filters infos
      = Except.error "empty checkers set selected" := by
    simp [initCheckers, h]
  refine ⟨?_, ?_, ?_⟩
  · simp [runLinter, hinit]
  · simp [runLinter, hinit, outcomeEvents, callEvents]
  · simp [runLinter, hinit, processExit]

/-- Witness for C5: every registered rule is `experimental`-tagged, so the
default filters select nothing and the run is a configuration failure. -/
theorem c5_empty_set_fatal_witness :
    runLinter ⟨defaultFilters, true, false, 1⟩
        [⟨"boolExprSimplify", ["experimental"]⟩] okImpl [[fileU1]]
      = RunOutcome.fatalConfig "empty checkers set selected" :=
  (c5_empty_set_fatal ⟨defaultFilters, true, false, 1⟩
    [⟨"boolExprSimplify", ["experimental"]⟩] okImpl [[fileU1]] (by decide)).1

/-- Fault propagation helper: if some checker of the dispatch list panics on
the unit, the whole `checkFile` step ends aborted. -/
theorem checkFileSt_aborted_of_fault (cs : List Checker) (f : File)
    (c : Checker) (hc : c ∈ cs) (p : Fault)
    (hp : c.check f = Except.error p) :
    ∀ b, (checkFileSt cs f b).aborted ≠ none := by
  induction cs with
  | nil => cases hc
  | cons c' cs' ih =>
    intro b
    rcases List.mem_cons.mp hc with rfl | hmem
    · have : (runChecker c f b).aborted = some p := by
        cases p <;> simp [runChecker, hp]
      simp [checkFileSt, this]
    · cases hr : (runChecker c' f b).aborted with
      | some q => simp [checkFileSt, hr]
      | none =>
          simp only [checkFileSt, hr]
          exact ih hmem (runChecker c' f b).found

/-- C8: a checker panic carrying an error value is logged together with the
rule's name and re-raised as the same error; a panic not carrying an error
value is re-raised unchanged with no named log line; either way the fault is
not recovered — the dispatch step ends aborted, and an aborted run makes the
whole process crash. -/
theorem c8_fault_handling (c : Checker) (f : File) (b : Bool) :
    (∀ msg, c.check f = Except.error (Fault.errVal msg) →
      runChecker c f b = ⟨b, [Event.call c.info.name f.filename,
        Event.errLog c.info.name msg], some (Fault.errVal msg)⟩)
    ∧ (∀ t, c.check f = Except.error (Fault.other t) →
      runChecker c f b = ⟨b, [Event.call c.info.name f.filename],
        some (Fault.other t)⟩)
    ∧ (∀ p cs, c.check f = Except.error p → c ∈ cs →
        (checkFileSt cs f b).aborted ≠ none)
    ∧ (∀ (cfg : Config) (infos : List CheckerInfo) impl
        (pkgs : List (List File)) (p : Fault) (active : List CheckerInfo),
        initCheckers cfg.filters infos = Except.ok active →
        (runPackagesSt cfg (active.map (fun i => Checker.mk i (impl i)))
          pkgs false).aborted = some p →
        runLinter cfg infos impl pkgs = RunOutcome.crashed p
          (runPackagesSt cfg (active.map (fun i => Checker.mk i (impl i)))
            pkgs false).events) := by
  refine ⟨?_, ?_, ?_, ?_⟩
  · intro msg hmsg
    simp [runChecker, hmsg]
  · intro t ht
    simp [runChecker, ht]
  · intro p cs hp hc
    exact checkFileSt_aborted_of_fault cs f c hc p hp b
  · intro cfg infos impl pkgs p active hinit habort
    simp [runLinter, hinit, habort]

/-- Witness for C8: a checker that panics with an error value yields the named
log line and the re-raised error, and its presence aborts the dispatch. -/
theorem c8_fault_handling_witness :
    runChecker ⟨⟨"panicRule", []⟩, fun _ => Except.error (Fault.errVal "oops")⟩
        fileU1 false
      = ⟨false, [Event.call "panicRule" "u1.go",
          Event.errLog "panicRule" "oops"], some (Fault.errVal "oops")⟩
    ∧ (checkFileSt
        [⟨⟨"panicRule", []⟩, fun _ => Except.error (Fault.errVal "oops")⟩]
        fileU1 false).aborted ≠ none := by
  constructor
  · exact (c8_fault_handling
      ⟨⟨"panicRule", []⟩, fun _ => Except.error (Fault.errVal "oops")⟩
      fileU1 false).1 "oops" rfl
  · exact (c8_fault_handling
      ⟨⟨"panicRule", []⟩, fun _ => Except.error (Fault.errVal "oops")⟩
      fileU1 false).2.2.1 (Fault.errVal "oops")
      [⟨⟨"panicRule", []⟩, fun _ => Except.error (Fault.errVal "oops")⟩]
      rfl (List.mem_singleton.mpr rfl)

/-- C10: the found-issues flag is monotone — its final value is the initial
value or-ed with "some warning event was emitted", so starting from `false`
(the zero value `Main` starts with) the exit step fires exactly when at least
one warning was produced at any point of the run. -/
theorem c10_found_issues_monotone (cfg : Config) (cs : List Checker)
    (pkgs : List (List File)) (b : Bool) (code : Int) :
    (runPackagesSt cfg cs pkgs b).found
      = (b || !(warnEvents (runPackagesSt cfg cs pkgs b).events).isEmpty)
    ∧ (runPackagesSt cfg cs pkgs true).found = true
    ∧ exitStep (runPackagesSt cfg cs pkgs false).found code
        = (if (warnEvents (runPackagesSt cfg cs pkgs false).events).isEmpty
            then none else some code) := by
  refine ⟨runPackagesSt_found cfg cs pkgs b, ?_, ?_⟩
  · rw [runPackagesSt_found]
    simp
  · rw [exitStep, runPackagesSt_found]
    cases hw : (warnEvents (runPackagesSt cfg cs pkgs false).events).isEmpty <;>
      simp [hw]

/-- A unit whose first comment group contains the generated-code marker, but
not at the very start of the group's text. -/
def fileMidMarker : File :=
  ⟨"u3.go", ["mock stuff Code generated by tool. DO NOT EDIT."]⟩

/-- C6 counterexample: with generated-unit checking disabled, a unit whose
first comment group contains the marker only in mid-text is skipped entirely
(no events, so no rule invoked), although it is not a test unit and the
claim's at-the-very-start detection classifies it as not generated. -/
theorem c6_counterexample :
    (checkPackageSt ⟨defaultFilters, true, false, 1⟩ [okChecker]
        [fileMidMarker] false).events = []
    ∧ isGenerated fileMidMarker = true
    ∧ isGeneratedAtStart fileMidMarker = false
    ∧ hasSuffix fileMidMarker.filename "_test.go" = false := by decide

/-- C6 (amended): within a package, the analyze calls are exactly those of
every dispatched checker on every unit that is not skipped, and a unit is
skipped exactly when it is a test unit with test-checking disabled, or a
generated unit — the marker matching anywhere within the first comment
group — with generated-unit checking disabled (`skipFile`). -/
theorem c6_unit_skipping (cfg : Config) (cs : List Checker)
    (files : List File) (b : Bool)
    (h : ∀ c ∈ cs, ∀ f, isOkB (c.check f) = true) :
    callEvents (checkPackageSt cfg cs files b).events
      = (files.filter (fun f => !skipFile cfg f)).flatMap
          (fun f => cs.map (fun c => Event.call c.info.name f.filename)) :=
  checkPackageSt_calls cfg cs files b h

/-- Witness for C6, the spec's scenario: package with units U1 (plain) and U2
(generated, marker at the start).  With generated-unit checking disabled only
U1 is analyzed; with it enabled, both are. -/
theorem c6_unit_skipping_witness :
    callEvents (checkPackageSt ⟨defaultFilters, true, false, 1⟩ [okChecker]
        [fileU1, fileU2] false).events = [Event.call "dupArg" "u1.go"]
    ∧ callEvents (checkPackageSt ⟨defaultFilters, true, true, 1⟩ [okChecker]
        [fileU1, fileU2] false).events
      = [Event.call "dupArg" "u1.go", Event.call "dupArg" "u2.go"] := by
  have hok : ∀ c ∈ [okChecker], ∀ f, isOkB (c.check f) = true := by
    intro c hc f
    rcases List.mem_singleton.mp hc with rfl
    rfl
  constructor
  · rw [c6_unit_skipping ⟨defaultFilters, true, false, 1⟩ [okChecker]
      [fileU1, fileU2] false hok]
    decide
  · rw [c6_unit_skipping ⟨defaultFilters, true, true, 1⟩ [okChecker]
      [fileU1, fileU2] false hok]
    decide

theorem runLinter_completed (cfg : Config) (infos : List CheckerInfo)
    (impl : CheckerInfo → File → Except Fault (List Warning))
    (pkgs : List (List File)) (active : List CheckerInfo)
    (hinit : initCheckers cfg.filters infos = Except.ok active)
    (habort : (runPackagesSt cfg
      (active.map (fun i => Checker.mk i (impl i))) pkgs false).aborted
        = none) :
    runLinter cfg infos impl pkgs =
      (if (runPackagesSt cfg (active.map (fun i => Checker.mk i (impl i)))
            pkgs false).found
        then RunOutcome.exited cfg.exitCode (runPackagesSt cfg
          (active.map (fun i => Checker.mk i (impl i))) pkgs false).events
        else RunOutcome.success (runPackagesSt cfg
          (active.map (fun i => Checker.mk i (impl i))) pkgs false).events)
    := by
  simp only [runLinter, hinit, habort, exitStep]
  cases hfd : (runPackagesSt cfg
      (active.map (fun i => Checker.mk i (impl i))) pkgs false).found <;>
    simp [hfd]

/-- C7: a completed run exits with the configured exit code when at least one
diagnostic was printed and with the success status 0 otherwise; in
particular, when every unit of every package is skipped, the run emits no
event at all and terminates successfully; the default configured exit code
is non-zero. -/
theorem c7_exit_behavior (cfg : Config) (infos : List CheckerInfo)
    (impl : CheckerInfo → File → Except Fault (List Warning))
    (pkgs : List (List File))
    (hne : (infos.filter (checkerEnabled cfg.filters)).isEmpty = false)
    (hnf : ∀ i f, isOkB (impl i f) = true) :
    processExit (runLinter cfg infos impl pkgs)
      = (if (warnEvents (outcomeEvents (runLinter cfg infos impl pkgs))).isEmpty
          then 0 else cfg.exitCode)
    ∧ ((∀ pkg ∈ pkgs, ∀ f ∈ pkg, skipFile cfg f = true) →
        runLinter cfg infos impl pkgs = RunOutcome.success []
        ∧ processExit (runLinter cfg infos impl pkgs) = 0)
    ∧ defaultExitCode ≠ 0 := by
  have hinit := initCheckers_ok cfg.filters infos hne
  have hok : ∀ c ∈ (infos.filter (checkerEnabled cfg.filters)).map
      (fun i => Checker.mk i (impl i)), ∀ f, isOkB (c.check f) = true := by
    intro c hc f
    obtain ⟨i, _, rfl⟩ := List.mem_map.mp hc
    exact hnf i f
  have habort := runPackagesSt_aborted_none cfg
    ((infos.filter (checkerEnabled cfg.filters)).map
      (fun i => Checker.mk i (impl i))) pkgs false hok
  have hrun := runLinter_completed cfg infos impl pkgs
    (infos.filter (checkerEnabled cfg.filters)) hinit habort
  refine ⟨?_, fun hskip => ?_, by decide⟩
  · have hfound := runPackagesSt_found cfg
      ((infos.filter (checkerEnabled cfg.filters)).map
        (fun i => Checker.mk i (impl i))) pkgs false
    rw [hrun]
    cases hfd : (runPackagesSt cfg
        ((infos.filter (checkerEnabled cfg.filters)).map
          (fun i => Checker.mk i (impl i))) pkgs false).found with
    | false =>
        rw [hfd] at hfound
        have hw : (warnEvents (runPackagesSt cfg
            ((infos.filter (checkerEnabled cfg.filters)).map
              (fun i => Checker.mk i (impl i))) pkgs false).events).isEmpty
            = true := by
          cases hw' : (warnEvents (runPackagesSt cfg
              ((infos.filter (checkerEnabled cfg.filters)).map
                (fun i => Checker.mk i (impl i))) pkgs false).events).isEmpty
          · rw [hw'] at hfound
            cases hfound
          · rfl
        simp [processExit, outcomeEvents, hw]
    | true =>
        rw [hfd] at hfound
        have hw : (warnEvents (runPackagesSt cfg
            ((infos.filter (checkerEnabled cfg.filters)).map
              (fun i => Checker.mk i (impl i))) pkgs false).events).isEmpty
            = false := by
          cases hw' : (warnEvents (runPackagesSt cfg
              ((infos.filter (checkerEnabled cfg.filters)).map
                (fun i => Checker.mk i (impl i))) pkgs false).events).isEmpty
          · rfl
          · rw [hw'] at hfound
            cases hfound
        simp [processExit, outcomeEvents, hw]
  · have hall := runPackagesSt_all_skip cfg
      ((infos.filter (checkerEnabled cfg.filters)).map
        (fun i => Checker.mk i (impl i))) pkgs false hskip
    rw [hrun, hall]
    simp [processExit, outcomeEvents]

/-- Witness for C7: a run over one plain unit with an issue-free checker ends
with the success status; a run in which the only unit is a test file and test
checking is off produces no event and succeeds. -/
theorem c7_exit_behavior_witness :
    processExit (runLinter ⟨defaultFilters, true, false, 1⟩ [⟨"dupArg", []⟩]
        okImpl [[fileU1]])
      = (if (warnEvents (outcomeEvents (runLinter ⟨defaultFilters, true,
            false, 1⟩ [⟨"dupArg", []⟩] okImpl [[fileU1]]))).isEmpty
          then 0 else (1 : Int))
    ∧ runLinter ⟨defaultFilters, false, false, 1⟩ [⟨"dupArg", []⟩] okImpl
        [[fileTest]] = RunOutcome.success [] := by
  constructor
  · exact (c7_exit_behavior ⟨defaultFilters, true, false, 1⟩ [⟨"dupArg", []⟩]
      okImpl [[fileU1]] (by decide) (fun _ _ => rfl)).1
  · exact ((c7_exit_behavior ⟨defaultFilters, false, false, 1⟩
      [⟨"dupArg", []⟩] okImpl [[fileTest]] (by decide)
      (fun _ _ => rfl)).2.1 (by decide)).1

theorem genTailLit_length : genTailLit.length = 12 := rfl

theorem genLit_length : genLit.length = 15 := rfl

theorem genScan_iff (l : List Char) :
    genScan l = true ↔ ∃ mid c post, l = mid ++ genTailLit ++ c :: post
      ∧ (∀ x ∈ mid, x ≠ '\n') ∧ c ≠ '\n' := by
  induction l with
  | nil =>
    simp only [genScan, Bool.false_eq_true, false_iff]
    rintro ⟨mid, c, post, heq, -, -⟩
    have hlen := congrArg List.length heq
    simp [genTailLit_length] at hlen
    omega
  | cons a rest ih =>
    constructor
    · intro h
      simp only [genScan] at h
      rcases Bool.or_eq_true_iff.mp h with h1 | h2
      · obtain ⟨hpre, hhead⟩ := Bool.and_eq_true_iff.mp h1
        obtain ⟨t, ht⟩ := List.isPrefixOf_iff_prefix.mp hpre
        have hdrop : (a :: rest).drop genTailLit.length = t := by
          rw [← ht, List.drop_left]
        rw [hdrop] at hhead
        cases t with
        | nil => cases hhead
        | cons c post =>
          refine ⟨[], c, post, ?_, by simp, ?_⟩
          · simp [← ht]
          · simpa [headNonNewline, bne_iff_ne] using hhead
      · obtain ⟨hne, hscan⟩ := Bool.and_eq_true_iff.mp h2
        obtain ⟨mid, c, post, heq, hmid, hc⟩ := ih.mp hscan
        refine ⟨a :: mid, c, post, ?_, ?_, hc⟩
        · simp [heq]
        · intro x hx
          rcases List.mem_cons.mp hx with rfl | hx'
          · simpa [bne_iff_ne] using hne
          · exact hmid x hx'
    · rintro ⟨mid, c, post, heq, hmid, hc⟩
      cases mid with
      | nil =>
        simp only [List.nil_append] at heq
        simp only [genScan]
        apply Bool.or_eq_true_iff.mpr
        left
        apply Bool.and_eq_true_iff.mpr
        refine ⟨?_, ?_⟩
        · rw [heq]
          exact List.isPrefixOf_iff_prefix.mpr ⟨c :: post, rfl⟩
        · rw [heq, List.drop_left]
          simpa [headNonNewline, bne_iff_ne] using hc
      | cons m ms =>
        simp only [List.cons_append] at heq
        injection heq with h1 h2
        subst h1
        simp only [genScan]
        apply Bool.or_eq_true_iff.mpr
        right
        apply Bool.and_eq_true_iff.mpr
        refine ⟨?_, ?_⟩
        · have : a ≠ '\n' := hmid a (List.mem_cons_self a ms)
          simpa [bne_iff_ne] using this
        · exact ih.mpr ⟨ms, c, post, h2, fun x hx =>
            hmid x (List.mem_cons_of_mem a hx), hc⟩

theorem genSearch_iff (l : List Char) :
    genSearch l = true ↔ ∃ pre mid c post,
      l = pre ++ genLit ++ mid ++ genTailLit ++ c :: post
      ∧ (∀ x ∈ mid, x ≠ '\n') ∧ c ≠ '\n' := by
  induction l with
  | nil =>
    simp only [genSearch, Bool.false_eq_true, false_iff]
    rintro ⟨pre, mid, c, post, heq, -, -⟩
    have hlen := congrArg List.length heq
    simp [genLit_length, genTailLit_length] at hlen
    omega
  | cons a rest ih =>
    constructor
    · intro h
      simp only [genSearch] at h
      rcases Bool.or_eq_true_iff.mp h with h1 | h2
      · obtain ⟨hpre, hscan⟩ := Bool.and_eq_true_iff.mp h1
        obtain ⟨t, ht⟩ := List.isPrefixOf_iff_prefix.mp hpre
        have hdrop : (a :: rest).drop genLit.length = t := by
          rw [← ht, List.drop_left]
        rw [hdrop] at hscan
        obtain ⟨mid, c, post, heq, hmid, hc⟩ := (genScan_iff t).mp hscan
        exact ⟨[], mid, c, post, by simp [← ht, heq], hmid, hc⟩
      · obtain ⟨pre, mid, c, post, heq, hmid, hc⟩ := ih.mp h2
        exact ⟨a :: pre, mid, c, post, by simp [heq], hmid, hc⟩
    · rintro ⟨pre, mid, c, post, heq, hmid, hc⟩
      cases pre with
      | nil =>
        simp only [List.nil_append] at heq
        simp only [genSearch]
        apply Bool.or_eq_true_iff.mpr
        left
        apply Bool.and_eq_true_iff.mpr
        refine ⟨?_, ?_⟩
        · rw [heq]
          exact List.isPrefixOf_iff_prefix.mpr
            ⟨mid ++ genTailLit ++ c :: post, by simp⟩
        · rw [heq, List.append_assoc, List.append_assoc, List.drop_left]
          exact (genScan_iff _).mpr ⟨mid, c, post, by simp, hmid, hc⟩
      | cons p ps =>
        simp only [List.cons_append] at heq
        injection heq with h1 h2
        simp only [genSearch]
        apply Bool.or_eq_true_iff.mpr
        right
        exact ih.mpr ⟨ps, mid, c, post, h2, hmid, hc⟩

/-- C9: the generated-unit detector returns `false` for every file with no
comment group; it reads only the first comment group (later groups are
irrelevant); and it classifies a file as generated exactly when the text of
that first group contains, anywhere — not only at the very start — the
literal `Code generated `, then a newline-free stretch, then
`" DO NOT EDIT"`, then one more non-newline character (the pattern's final
`.`); a group text carrying the marker only in mid-text does match. -/
theorem c9_generated_detector :
    (∀ name, isGenerated ⟨name, []⟩ = false)
    ∧ (∀ name g r1 r2, isGenerated ⟨name, g :: r1⟩ = isGenerated ⟨name, g :: r2⟩)
    ∧ (∀ name g rest, isGenerated ⟨name, g :: rest⟩ = true ↔
        ∃ pre mid c post,
          g.toList = pre ++ genLit ++ mid ++ genTailLit ++ c :: post
          ∧ (∀ x ∈ mid, x ≠ '\n') ∧ c ≠ '\n')
    ∧ generatedFileCommentMatch
        "mock stuff Code generated by tool. DO NOT EDIT." = true := by
  refine ⟨fun name => rfl, fun name g r1 r2 => rfl, ?_, by decide⟩
  intro name g rest
  have hred : isGenerated ⟨name, g :: rest⟩ = genSearch g.toList := by
    simp [isGenerated, generatedFileCommentMatch]
  rw [hred]
  exact genSearch_iff g.toList

end Lintpack
